import Mathlib

set_option maxRecDepth 100000

/-!
Verification of the leep repository (src/main.c): the bounded circular
message queue (`messagesPut` / `messagesGet`, lines 32-100) and the player
velocity-transition controller (`Vector2Polate`, `playerUpdate`,
`playerStop`, `playerMove`, `setup`, lines 8-16 and 102-194).

The queue is embedded with slot contents as `Option Nat` (a `const char *`
that is `NULL` or an owned string; string identity is irrelevant to the
claims, so messages are tagged by naturals).  `size_t` counters are `Nat`.
The player component is embedded over exact real arithmetic: `float`
fields become `ℝ`, and the source's numeric literals (`0.5`, `0.9`) are the
exact rationals they denote.
-/

namespace Leep

/-! ### Message queue (src/main.c lines 32-100) -/

/-- Capacity of the message ring buffer (`#define MAX_MESSAGES_LEN 100`). -/
def MAX_MESSAGES_LEN : Nat := 100

/-- The queue state: the fixed 100-slot array `messages` (kept as a list of
length `MAX_MESSAGES_LEN`), the head index `messagesIndex` and the length
`messagesLen` (both `size_t` in the source, embedded as `Nat`). -/
structure MsgQueue where
  messages : List (Option Nat)
  messagesIndex : Nat
  messagesLen : Nat
deriving DecidableEq

/-- Initial state: `static const char *messages[MAX_MESSAGES_LEN] = {0}`,
`messagesIndex = 0`, `messagesLen = 0`. -/
def mqInit : MsgQueue :=
  { messages := List.replicate MAX_MESSAGES_LEN none
    messagesIndex := 0
    messagesLen := 0 }

/-- `messagesPut` (lines 63-75).  Note the source's eviction guard is
`messagesLen > MAX_MESSAGES_LEN`, a strict inequality: eviction starts only
once the length already exceeds the capacity. -/
def messagesPut (q : MsgQueue) (m : Nat) : MsgQueue :=
  let q1 :=
    if q.messagesLen > MAX_MESSAGES_LEN then
      { q with
          messagesLen := q.messagesLen - 1
          messagesIndex := (q.messagesIndex + 1) % MAX_MESSAGES_LEN }
    else q
  { q1 with
      messages :=
        q1.messages.set ((q1.messagesIndex + q1.messagesLen) % MAX_MESSAGES_LEN) (some m)
      messagesLen := q1.messagesLen + 1 }

/-- `messagesIsEmpty` (line 77). -/
def messagesIsEmpty (q : MsgQueue) : Bool := q.messagesLen == 0

/-- `messagesGet` (lines 79-93): returns the popped value (`NULL` = `none`
on empty) together with the state after the call. -/
def messagesGet (q : MsgQueue) : Option Nat × MsgQueue :=
  if q.messagesLen = 0 then (none, q)
  else
    let outIndex := q.messagesIndex
    let out := q.messages.getD outIndex none
    (out,
      { q with
          messagesIndex := (q.messagesIndex + 1) % MAX_MESSAGES_LEN
          messagesLen := q.messagesLen - 1
          messages := q.messages.set outIndex none })

/-- Pop `n` times in a row, collecting the returned values in order. -/
def messagesPopN : Nat → MsgQueue → List (Option Nat) × MsgQueue
  | 0, q => ([], q)
  | n + 1, q =>
    let r := messagesGet q
    let rest := messagesPopN n r.2
    (r.1 :: rest.1, rest.2)

/-- One external queue operation: a push of a tagged message, or a pop. -/
inductive MsgOp where
  | put (m : Nat)
  | get
deriving DecidableEq

/-- Apply one queue operation to a state. -/
def msgStep (q : MsgQueue) : MsgOp → MsgQueue
  | .put m => messagesPut q m
  | .get => (messagesGet q).2

/-- Run a sequence of queue operations from the initial (empty) state. -/
def msgRun (ops : List MsgOp) : MsgQueue := ops.foldl msgStep mqInit

/-- Push the `n` distinct messages `0, 1, ..., n-1` into the empty queue. -/
def pushSeq (n : Nat) : MsgQueue := (List.range n).foldl messagesPut mqInit

/-- C1: the claim says `count` never exceeds the capacity `N = 100` and a
push while `count >= N` first evicts the oldest message.  The code's
eviction guard is the strict `messagesLen > MAX_MESSAGES_LEN`, so the
101st consecutive push into the empty queue performs no eviction and
leaves `messagesLen = 101 > 100`: the count does exceed the capacity. -/
theorem c1_count_exceeds_capacity :
    MAX_MESSAGES_LEN < (pushSeq 101).messagesLen ∧
      (pushSeq 101).messagesLen = MAX_MESSAGES_LEN + 1 := by
  decide

/-- C2: the claim says pushing `N+1` distinct messages (here `0..100`) and
then draining yields the last `N` pushed, `1, ..., 100`, in push order.
Instead the 101st push overwrites the slot of the oldest message `0` with
the newest message `100` while `messagesLen` grows to 101, so draining
yields `100, 1, 2, ..., 99` followed by a `NULL` (`none`) from the slot
already cleared by the first pop — not `1, ..., 100`. -/
theorem c2_drain_wrong_order :
    (messagesPopN 101 (pushSeq 101)).1 =
        (some 100 :: (List.range' 1 99).map some) ++ [none] ∧
      (messagesPopN 101 (pushSeq 101)).1 ≠ (List.range' 1 100).map some ∧
      (messagesPopN 101 (pushSeq 101)).2.messagesLen = 0 := by
  decide

/-- C5: the claim says every reachable state has exactly `count` non-null
slots, those in the window `[head, head+count)` mod `N`.  After 101
consecutive pushes the state has `messagesLen = 101` but the 100-slot
array holds only 100 non-null entries, so the claimed correspondence
between `count` and the non-null slots fails in a reachable state. -/
theorem c5_slot_invariant_broken :
    (pushSeq 101).messagesLen = 101 ∧
      (pushSeq 101).messages.countP (fun s => s.isSome) = 100 := by
  decide

/-- C9: `messagesGet` on an empty queue (`messagesLen = 0`) returns `none`
and leaves the state (in particular `messagesIndex` and `messagesLen`)
unchanged, and popping any number of times in a row keeps returning `none`
without mutating the state. -/
theorem c9_pop_on_empty (q : MsgQueue) (h : q.messagesLen = 0) :
    messagesGet q = (none, q) ∧
      ∀ n, messagesPopN n q = (List.replicate n none, q) := by
  have hget : messagesGet q = (none, q) := by
    unfold messagesGet
    rw [if_pos h]
  refine ⟨hget, ?_⟩
  intro n
  induction n with
  | zero => simp [messagesPopN]
  | succ n ih => simp [messagesPopN, hget, ih, List.replicate_succ]

/-- Witness for C9 at the concrete initial queue. -/
theorem c9_pop_on_empty_w :
    mqInit.messagesLen = 0 ∧ messagesGet mqInit = (none, mqInit) ∧
      messagesPopN 3 mqInit = (List.replicate 3 none, mqInit) := by
  have h := c9_pop_on_empty mqInit rfl
  exact ⟨rfl, h.1, h.2 3⟩

/-! ### Player velocity controller (src/main.c lines 8-29, 102-153, 187-193)

The `float` fields are embedded as exact reals; the literals `0.5` and
`0.9` denote the exact rationals `1/2` and `9/10`. -/

/-- A 2D vector, raylib's `Vector2` with `float` fields embedded as `ℝ`. -/
@[ext]
structure Vector2 where
  x : ℝ
  y : ℝ

/-- raymath `Vector2Length`: `sqrtf(v.x*v.x + v.y*v.y)`. -/
noncomputable def Vector2Length (v : Vector2) : ℝ :=
  Real.sqrt (v.x * v.x + v.y * v.y)

/-- raymath `Vector2Scale`: componentwise scaling. -/
def Vector2Scale (v : Vector2) (s : ℝ) : Vector2 := ⟨v.x * s, v.y * s⟩

/-- raymath `Vector2Normalize`: scales by `1/length` when `length > 0`,
otherwise returns the zero vector. -/
noncomputable def Vector2Normalize (v : Vector2) : Vector2 :=
  if 0 < Vector2Length v then Vector2Scale v (1 / Vector2Length v) else ⟨0, 0⟩

/-- `Vector2Polate` (lines 8-16): the repo's quadratic ease from `curr`
toward `dest` with parameter `t`. -/
def Vector2Polate (curr dest : Vector2) (t : ℝ) : Vector2 :=
  let dx := dest.x - curr.x
  let dy := dest.y - curr.y
  ⟨curr.x + dx * 0.5 * t * t + dx * t, curr.y + dy * 0.5 * t * t + dy * t⟩

/-- `PLAYER_VEL_TRANSITION_FRAMES = 30` (line 20). -/
def PLAYER_VEL_TRANSITION_FRAMES : Nat := 30

/-- The `Player` struct (lines 21-29): `size_t` fields as `Nat`, the `int`
countdown as `Int`. -/
structure Player where
  pos : Vector2
  vel : Vector2
  targetVel : Vector2
  maxVel : Nat
  radius : Nat
  velTransitionTime : Int

/-- `playerUpdate` (lines 102-117): integrate position, then either ease
toward `targetVel` (countdown positive, decrementing it), or decay the
velocity by `0.9` (countdown `-1`), or do nothing. -/
noncomputable def playerUpdate (p : Player) : Player :=
  let p1 := { p with pos := ⟨p.pos.x + p.vel.x, p.pos.y + p.vel.y⟩ }
  if p1.velTransitionTime > 0 then
    let newVel := Vector2Polate p1.vel p1.targetVel
      (1 - (p1.velTransitionTime : ℝ) / (PLAYER_VEL_TRANSITION_FRAMES : ℝ))
    { p1 with velTransitionTime := p1.velTransitionTime - 1, vel := newVel }
  else if p1.velTransitionTime = -1 then
    { p1 with vel := Vector2Scale p1.vel 0.9 }
  else p1

/-- `playerStop` (lines 133-138): only acts when the countdown is exactly
`0`, setting the decelerating sentinel `-1`. -/
def playerStop (p : Player) : Player :=
  if p.velTransitionTime = 0 then { p with velTransitionTime := -1 } else p

/-- `playerMove` (lines 139-153).  The source's rescale test is
`p->maxVel / Vector2Length(direction) < 1.0` on floats; the extra
`Vector2Length direction ≠ 0` conjunct renders its IEEE semantics: when
the length is `0` the float quotient is `+inf` (or `NaN` for
`maxVel == 0`), which never compares `< 1.0`, whereas Lean's real
division by zero yields `0`.  (The static `moveNum` counter is dead state
and omitted.) -/
noncomputable def playerMove (p : Player) (direction : Vector2) : Player :=
  let p1 := { p with velTransitionTime := (PLAYER_VEL_TRANSITION_FRAMES : Int) }
  let dir :=
    if Vector2Length direction ≠ 0 ∧ (p.maxVel : ℝ) / Vector2Length direction < 1 then
      Vector2Scale (Vector2Normalize direction) (p.maxVel : ℝ)
    else direction
  { p1 with targetVel := dir }

/-- The player produced by `setup` (lines 187-191): `radius = 10`,
`maxVel = 10`, `velTransitionTime = -1`, remaining fields
zero-initialized. -/
def player0 : Player :=
  { pos := ⟨0, 0⟩
    vel := ⟨0, 0⟩
    targetVel := ⟨0, 0⟩
    maxVel := 10
    radius := 10
    velTransitionTime := -1 }

/-- The mutations `update` (lines 196-266) can apply to the global player:
a move request, a stop request, a simulation tick, an arrow-key position
nudge, or the `KEY_R` reset through `setup`. -/
inductive POp where
  | move (d : Vector2)
  | stop
  | update
  | nudge (dx dy : ℝ)
  | reset

/-- Apply one player operation. -/
noncomputable def pStep (p : Player) : POp → Player
  | .move d => playerMove p d
  | .stop => playerStop p
  | .update => playerUpdate p
  | .nudge dx dy => { p with pos := ⟨p.pos.x + dx, p.pos.y + dy⟩ }
  | .reset => player0

/-- Run a sequence of player operations from the `setup` state. -/
noncomputable def pRun (ops : List POp) : Player := ops.foldl pStep player0

end Leep

namespace Leep

/-! ### Vector helper lemmas -/

lemma Vector2Length_mk (a b : ℝ) : Vector2Length ⟨a, b⟩ = Real.sqrt (a * a + b * b) := rfl

lemma Vector2Length_pos {v : Vector2} (h : v ≠ ⟨0, 0⟩) : 0 < Vector2Length v := by
  rw [Vector2Length, Real.sqrt_pos]
  rcases eq_or_ne v.x 0 with hx | hx
  · rcases eq_or_ne v.y 0 with hy | hy
    · exact absurd (Vector2.ext hx hy) h
    · nlinarith [mul_self_pos.mpr hy, mul_self_nonneg v.x]
  · nlinarith [mul_self_pos.mpr hx, mul_self_nonneg v.y]

lemma Vector2Length_scale (v : Vector2) (c : ℝ) :
    Vector2Length (Vector2Scale v c) = |c| * Vector2Length v := by
  simp only [Vector2Length, Vector2Scale]
  rw [show v.x * c * (v.x * c) + v.y * c * (v.y * c) = c ^ 2 * (v.x * v.x + v.y * v.y) from by
        ring,
    Real.sqrt_mul (sq_nonneg c), Real.sqrt_sq_eq_abs]

lemma Vector2Scale_scale (v : Vector2) (a b : ℝ) :
    Vector2Scale (Vector2Scale v a) b = Vector2Scale v (a * b) := by
  ext <;> simp [Vector2Scale] <;> ring

lemma Vector2Scale_one (v : Vector2) : Vector2Scale v 1 = v := by
  ext <;> simp [Vector2Scale]

/-! ### Player helper lemmas -/

lemma playerUpdate_tick {p : Player} (h : 0 < p.velTransitionTime) :
    (playerUpdate p).velTransitionTime = p.velTransitionTime - 1 := by
  simp only [playerUpdate]
  rw [if_pos h]

lemma playerUpdate_decel {p : Player} (h : p.velTransitionTime = -1) :
    playerUpdate p =
      { p with
          pos := ⟨p.pos.x + p.vel.x, p.pos.y + p.vel.y⟩
          vel := Vector2Scale p.vel 0.9 } := by
  simp only [playerUpdate]
  rw [if_neg (by simp [h]), if_pos h]

lemma playerStop_ne {p : Player} (h : p.velTransitionTime ≠ 0) : playerStop p = p := by
  rw [playerStop, if_neg h]

lemma playerMove_zero_dir (p : Player) :
    playerMove p ⟨0, 0⟩ = { p with velTransitionTime := 30, targetVel := ⟨0, 0⟩ } := by
  have h0 : Vector2Length ⟨0, 0⟩ = 0 := by
    rw [Vector2Length_mk, show (0:ℝ) * 0 + 0 * 0 = 0 from by norm_num, Real.sqrt_zero]
  simp only [playerMove]
  rw [if_neg (by simp [h0])]
  norm_num [PLAYER_VEL_TRANSITION_FRAMES]

end Leep

namespace Leep

/-- C4 counterexample: a zero-length move request on the freshly set-up
player is not rejected — it mutates the state, flipping the transition
countdown from `-1` to `30`. -/
theorem c4_zero_dir_not_rejected :
    (playerMove player0 ⟨0, 0⟩).velTransitionTime = 30 ∧
      player0.velTransitionTime = -1 ∧
      playerMove player0 ⟨0, 0⟩ ≠ player0 := by
  have h := playerMove_zero_dir player0
  refine ⟨by rw [h], rfl, fun heq => ?_⟩
  have h30 : (playerMove player0 ⟨0, 0⟩).velTransitionTime = 30 := by rw [h]
  rw [heq] at h30
  exact absurd h30 (by norm_num [player0])

/-- C4 amended: `playerMove` with a zero-length direction is not rejected;
it sets the transition countdown to `30` and `targetVel` to the zero
vector (the only state it mutates), and the normalizing rescale branch is
not taken, so no division by zero occurs. -/
theorem c4_zero_dir_behavior (p : Player) :
    playerMove p ⟨0, 0⟩ = { p with velTransitionTime := 30, targetVel := ⟨0, 0⟩ } :=
  playerMove_zero_dir p

/-- C6: for a non-zero direction and positive `maxVel`, `playerMove` keeps
the direction unchanged when its Euclidean length is at most `maxVel`, and
otherwise rescales it to Euclidean length exactly `maxVel` while
preserving the direction (the result is a positive scalar multiple, never
a per-component truncation). -/
theorem c6_clamp (p : Player) (d : Vector2) (hd : d ≠ ⟨0, 0⟩) (hm : 0 < p.maxVel) :
    (Vector2Length d ≤ (p.maxVel : ℝ) → (playerMove p d).targetVel = d) ∧
    ((p.maxVel : ℝ) < Vector2Length d →
      Vector2Length (playerMove p d).targetVel = (p.maxVel : ℝ) ∧
        ∃ c : ℝ, 0 < c ∧ (playerMove p d).targetVel = Vector2Scale d c) := by
  have hL : 0 < Vector2Length d := Vector2Length_pos hd
  have hmr : (0:ℝ) < (p.maxVel : ℝ) := by exact_mod_cast hm
  constructor
  · intro hle
    have hcond : ¬(Vector2Length d ≠ 0 ∧ (p.maxVel : ℝ) / Vector2Length d < 1) := by
      rintro ⟨-, hlt⟩
      rw [div_lt_one hL] at hlt
      exact absurd (lt_of_le_of_lt hle hlt) (lt_irrefl _)
    simp only [playerMove]
    rw [if_neg hcond]
  · intro hgt
    have hcond : Vector2Length d ≠ 0 ∧ (p.maxVel : ℝ) / Vector2Length d < 1 :=
      ⟨ne_of_gt hL, (div_lt_one hL).mpr hgt⟩
    have hpos : 0 < 1 / Vector2Length d * (p.maxVel : ℝ) := by positivity
    have htv : (playerMove p d).targetVel =
        Vector2Scale d (1 / Vector2Length d * (p.maxVel : ℝ)) := by
      simp only [playerMove]
      rw [if_pos hcond, Vector2Normalize, if_pos hL, Vector2Scale_scale]
    refine ⟨?_, 1 / Vector2Length d * (p.maxVel : ℝ), hpos, htv⟩
    rw [htv, Vector2Length_scale, abs_of_pos hpos]
    field_simp

/-- Witness for C6: the set-up player (`maxVel = 10`) with direction
`{30, 40}` of length `50 > 10` gets a target velocity of length exactly
`10`. -/
theorem c6_clamp_w :
    (⟨30, 40⟩ : Vector2) ≠ ⟨0, 0⟩ ∧ 0 < player0.maxVel ∧
      Vector2Length (playerMove player0 ⟨30, 40⟩).targetVel = (player0.maxVel : ℝ) := by
  have hd : (⟨30, 40⟩ : Vector2) ≠ (⟨0, 0⟩ : Vector2) := by
    intro h
    have hx := congrArg Vector2.x h
    norm_num at hx
  have hm : 0 < player0.maxVel := by norm_num [player0]
  have h50 : Vector2Length ⟨30, 40⟩ = 50 := by
    rw [Vector2Length_mk, show (30:ℝ) * 30 + 40 * 40 = 50 ^ 2 from by norm_num,
      Real.sqrt_sq (by norm_num : (0:ℝ) ≤ 50)]
  have hgt : (player0.maxVel : ℝ) < Vector2Length ⟨30, 40⟩ := by
    rw [h50]; norm_num [player0]
  exact ⟨hd, hm, ((c6_clamp player0 ⟨30, 40⟩ hd hm).2 hgt).1⟩

/-- Iterating the per-frame pair `playerStop ∘ playerUpdate` (the order of
`update`, lines 196-215) from a positive countdown `k` reaches the
decelerating sentinel `-1` after exactly `k` frames. -/
lemma stop_frames :
    ∀ (k : ℕ) (p : Player), 0 < k → p.velTransitionTime = (k : ℤ) →
      ((fun q => playerStop (playerUpdate q))^[k] p).velTransitionTime = -1 := by
  intro k
  induction k with
  | zero => intro p h _; exact absurd h (lt_irrefl 0)
  | succ k ih =>
    intro p _ hr
    rw [Function.iterate_succ_apply]
    have hup : (playerUpdate p).velTransitionTime = (k : ℤ) := by
      rw [playerUpdate_tick (by rw [hr]; omega)]
      rw [hr]; push_cast; ring
    rcases Nat.eq_zero_or_pos k with hk | hk
    · subst hk
      simp only [Function.iterate_zero, id]
      rw [playerStop, if_pos (by rw [hup]; rfl)]
    · refine ih (playerStop (playerUpdate p)) hk ?_
      rw [playerStop_ne (by rw [hup]; omega), hup]

/-- C7: `playerStop` on an idle controller (countdown `0`) transitions to
the decelerating sentinel `-1` and changes nothing else; with an active
countdown (`> 0`) a single call is a no-op; and if the stop request is
held every frame (as `update` does while no key is down, calling
`playerStop` right after `playerUpdate`), the controller transitions to
the sentinel exactly when the countdown reaches zero, after `k` frames. -/
theorem c7_stop_deferred (p : Player) :
    (p.velTransitionTime = 0 → playerStop p = { p with velTransitionTime := -1 }) ∧
    (0 < p.velTransitionTime → playerStop p = p) ∧
    (∀ k : ℕ, 0 < k → p.velTransitionTime = (k : ℤ) →
      ((fun q => playerStop (playerUpdate q))^[k] p).velTransitionTime = -1) := by
  refine ⟨fun h => ?_, fun h => playerStop_ne (by omega), fun k hk hr => stop_frames k p hk hr⟩
  rw [playerStop, if_pos h]

/-- Witness for C7: from the set-up player with countdown `3` and stop
held, three frames reach the sentinel; and a stop on countdown `0` sets
the sentinel at once. -/
theorem c7_stop_deferred_w :
    ({ player0 with velTransitionTime := 3 } : Player).velTransitionTime = ((3 : ℕ) : ℤ) ∧
      ((fun q => playerStop (playerUpdate q))^[3]
        ({ player0 with velTransitionTime := 3 } : Player)).velTransitionTime = -1 ∧
      (playerStop { player0 with velTransitionTime := 0 }).velTransitionTime = -1 := by
  refine ⟨rfl, (c7_stop_deferred _).2.2 3 (by norm_num) rfl, ?_⟩
  rw [(c7_stop_deferred { player0 with velTransitionTime := 0 }).1 rfl]

end Leep

namespace Leep

/-- While the countdown sits at the decelerating sentinel, `n` ticks leave
the sentinel in place and scale the velocity by `0.9 ^ n`. -/
lemma decel_iterate {p : Player} (h : p.velTransitionTime = -1) (n : ℕ) :
    (playerUpdate^[n] p).velTransitionTime = -1 ∧
      (playerUpdate^[n] p).vel = Vector2Scale p.vel ((0.9 : ℝ) ^ n) := by
  induction n with
  | zero => simpa using ⟨h, (Vector2Scale_one p.vel).symm⟩
  | succ n ih =>
    rw [Function.iterate_succ_apply', playerUpdate_decel ih.1]
    exact ⟨ih.1, by rw [ih.2, Vector2Scale_scale, ← pow_succ]⟩

/-- C8: in decelerating mode (`velTransitionTime = -1`) with a non-zero
velocity, each tick scales the velocity by exactly `0.9` (so `{10, 0}`
becomes exactly `{9, 0}` in one tick), the Euclidean speed strictly
decreases on every subsequent tick and eventually drops below any positive
bound, yet the velocity never becomes exactly zero. -/
theorem c8_decay (p : Player) (hr : p.velTransitionTime = -1) (hv : p.vel ≠ ⟨0, 0⟩) :
    (playerUpdate p).vel = Vector2Scale p.vel 0.9 ∧
    (p.vel = ⟨10, 0⟩ → (playerUpdate p).vel = ⟨9, 0⟩) ∧
    (∀ n, (playerUpdate^[n] p).vel ≠ ⟨0, 0⟩) ∧
    (∀ n, Vector2Length ((playerUpdate^[n + 1] p).vel) <
      Vector2Length ((playerUpdate^[n] p).vel)) ∧
    (∀ ε : ℝ, 0 < ε → ∃ n, Vector2Length ((playerUpdate^[n] p).vel) < ε) := by
  have h1 : (playerUpdate p).vel = Vector2Scale p.vel 0.9 := by
    rw [playerUpdate_decel hr]
  have hL : 0 < Vector2Length p.vel := Vector2Length_pos hv
  have h09 : (0:ℝ) < 0.9 := by norm_num
  refine ⟨h1, fun h10 => ?_, fun n => ?_, fun n => ?_, fun ε hε => ?_⟩
  · rw [h1, h10]
    ext <;> norm_num [Vector2Scale]
  · rw [(decel_iterate hr n).2]
    intro heq
    apply hv
    have hc : ((0.9 : ℝ) ^ n) ≠ 0 := pow_ne_zero _ (by norm_num)
    have hx := congrArg Vector2.x heq
    have hy := congrArg Vector2.y heq
    simp only [Vector2Scale] at hx hy
    refine Vector2.ext ?_ ?_
    · rcases mul_eq_zero.mp hx with h | h
      · exact h
      · exact absurd h hc
    · rcases mul_eq_zero.mp hy with h | h
      · exact h
      · exact absurd h hc
  · rw [(decel_iterate hr n).2, (decel_iterate hr (n + 1)).2, Vector2Length_scale,
      Vector2Length_scale, abs_of_pos (pow_pos h09 n), abs_of_pos (pow_pos h09 (n + 1)),
      pow_succ]
    nlinarith [pow_pos h09 n]
  · obtain ⟨n, hn⟩ := exists_pow_lt_of_lt_one (div_pos hε hL) (show (0.9:ℝ) < 1 from by norm_num)
    refine ⟨n, ?_⟩
    rw [(decel_iterate hr n).2, Vector2Length_scale, abs_of_pos (pow_pos h09 n)]
    calc (0.9:ℝ) ^ n * Vector2Length p.vel < ε / Vector2Length p.vel * Vector2Length p.vel :=
          mul_lt_mul_of_pos_right hn hL
      _ = ε := div_mul_cancel₀ ε (ne_of_gt hL)

/-- Witness for C8: the set-up player moving at `{10, 0}` in decelerating
mode decays to exactly `{9, 0}` after one tick. -/
theorem c8_decay_w :
    ({ player0 with vel := ⟨10, 0⟩ } : Player).velTransitionTime = -1 ∧
      ({ player0 with vel := ⟨10, 0⟩ } : Player).vel ≠ ⟨0, 0⟩ ∧
      (playerUpdate { player0 with vel := ⟨10, 0⟩ }).vel = ⟨9, 0⟩ := by
  have hv : ({ player0 with vel := ⟨10, 0⟩ } : Player).vel ≠ (⟨0, 0⟩ : Vector2) := by
    intro h
    have hx := congrArg Vector2.x h
    norm_num [player0] at hx
  exact ⟨rfl, hv, (c8_decay { player0 with vel := ⟨10, 0⟩ } rfl hv).2.1 rfl⟩

/-- Any single `update`-loop mutation keeps the countdown within
`[-1, 30]`. -/
lemma pStep_range {p : Player} (op : POp) (h1 : -1 ≤ p.velTransitionTime)
    (h2 : p.velTransitionTime ≤ 30) :
    -1 ≤ (pStep p op).velTransitionTime ∧ (pStep p op).velTransitionTime ≤ 30 := by
  cases op with
  | move d =>
    simp only [pStep, playerMove]
    constructor <;> norm_num [PLAYER_VEL_TRANSITION_FRAMES]
  | stop =>
    simp only [pStep, playerStop]
    split
    · constructor <;> norm_num
    · exact ⟨h1, h2⟩
  | update =>
    simp only [pStep, playerUpdate]
    split_ifs <;> constructor <;> simp <;> omega
  | nudge dx dy => exact ⟨h1, h2⟩
  | reset => constructor <;> norm_num [pStep, player0]

/-- C10: in every program state reachable from `setup` by any sequence of
`playerMove` / `playerStop` / `playerUpdate` / position nudges / resets,
the countdown `velTransitionTime` stays within `{-1, 0, ..., 30}`. -/
theorem c10_countdown_range (ops : List POp) :
    -1 ≤ (pRun ops).velTransitionTime ∧ (pRun ops).velTransitionTime ≤ 30 := by
  have main : ∀ (l : List POp) (p : Player), -1 ≤ p.velTransitionTime →
      p.velTransitionTime ≤ 30 →
      -1 ≤ (l.foldl pStep p).velTransitionTime ∧ (l.foldl pStep p).velTransitionTime ≤ 30 := by
    intro l
    induction l with
    | nil => intro p hp1 hp2; exact ⟨hp1, hp2⟩
    | cons op l ih =>
      intro p hp1 hp2
      have h := pStep_range op hp1 hp2
      exact ih (pStep p op) h.1 h.2
  exact main ops player0 (by norm_num [player0]) (by norm_num [player0])

end Leep
